import Mathlib

/-!
Verification of the DETR data-feeder core (`detr_models/detr/data_feeder.py`):
label-to-target encoding, batch object-index bookkeeping, and sinusoidal
positional-encoding generation, embedded shallowly over lists and exact
arithmetic (`ℚ` for label/class values, `ℝ` for the trigonometric encoding).
-/

/-- One row of a parsed label array: `[class, x_center, y_center, width, height]`
(data_feeder.py line 214 destructures a row as `cls_label, x, y, w, h`). -/
structure Label where
  cls : ℚ
  x : ℚ
  y : ℚ
  w : ℚ
  h : ℚ
deriving DecidableEq, Repr

/-- The four coordinates written into `sample_bbox[idx, :]` (line 216). -/
def bboxOf (l : Label) : ℚ × ℚ × ℚ × ℚ := (l.x, l.y, l.w, l.h)

/-- Body of the write loop of `labels_to_targets` (lines 213-216): slot `p.1`
of the class array receives the label's class and slot `p.1` of the bbox array
receives its coordinates.  `List.set` drops a write whose index is out of
bounds (the compiled source performs no bounds check there at all). -/
def writeStep (acc : List ℚ × List (ℚ × ℚ × ℚ × ℚ)) (p : ℕ × Label) :
    List ℚ × List (ℚ × ℚ × ℚ × ℚ) :=
  (acc.1.set p.1 p.2.cls, acc.2.set p.1 (bboxOf p.2))

/-- Embedding of `labels_to_targets` (data_feeder.py lines 179-218): both outputs start
filled with the sentinel `num_classes` (`np.full`, lines 206-211), then the
loop `for idx, labeled_obj in enumerate(sample_labels)` overwrites slot `idx`
of each. -/
def labels_to_targets (sample_labels : List Label) (num_queries : ℕ)
    (num_classes : ℚ) : List ℚ × List (ℚ × ℚ × ℚ × ℚ) :=
  sample_labels.enum.foldl writeStep
    (List.replicate num_queries num_classes,
     List.replicate num_queries (num_classes, num_classes, num_classes, num_classes))

/-- Embedding of `np.where(sample != v)[0]` on a 1-D array (data_feeder.py line 244 with
`v = 4.0`): the indices of the entries different from `v`. -/
def npWhereNe (sample : List ℚ) (v : ℚ) : List ℕ :=
  (sample.enum.filter (fun p => decide (p.2 ≠ v))).map Prod.fst

/-- Embedding of `retrieve_obj_indices` (data_feeder.py lines 221-257): fold over the batch
keeping the running offset `last_num_objects`; each sample contributes
`np.arange(start, start + k)` where `k = len(np.where(sample != 4.0)[0])`.
The source special-cases the first iteration with `start = 0`, which is the
fold below with initial offset `0`. -/
def trackStep (acc : List (List ℕ) × ℕ) (sample : List ℚ) : List (List ℕ) × ℕ :=
  let num_objects_in_sample := (npWhereNe sample 4).length
  (acc.1 ++ [List.range' acc.2 num_objects_in_sample],
   acc.2 + num_objects_in_sample)

def retrieve_obj_indices (batch_cls : List (List ℚ)) : List (List ℕ) :=
  (batch_cls.foldl trackStep ([], 0)).1

/-- Per-sample object counts with respect to a sentinel `C`: the number of
slots whose value differs from `C` (the count the spec asks the index tracker
to use). -/
def countsWith (C : ℚ) (batch_cls : List (List ℚ)) : List ℕ :=
  batch_cls.map (fun sample => (npWhereNe sample C).length)

/-- The contiguous ranges `[off, off+k_0), [off+k_0, off+k_0+k_1), ...` the
spec's partition invariant describes. -/
def rangesFrom (off : ℕ) : List ℕ → List (List ℕ)
  | [] => []
  | k :: ks => List.range' off k :: rangesFrom (off + k) ks

/-- Writing only one of the two target arrays: used to reason about the two
components of `writeStep` separately. -/
def setStep {α : Type} (g : Label → α) (acc : List α) (p : ℕ × Label) : List α :=
  acc.set p.1 (g p.2)

/-- Embedding of `y_embed` (data_feeder.py line 282): value `h + 1` at grid cell `(h, w)`
(`np.repeat(np.arange(1, height + 1), width).reshape(height, width)`). -/
def y_embed (h _w : ℕ) : ℕ := h + 1

/-- Embedding of `x_embed` (line 283): value `w + 1` at grid cell `(h, w)`
(`np.full(shape=(height, width), fill_value=np.arange(1, width + 1))`). -/
def x_embed (_h w : ℕ) : ℕ := w + 1

/-- Embedding of `div_term` (lines 286-287): `10000 ** (2 * (j // 2) / num_pos_feats)` for
channel `j`, with `j // 2` integer division. -/
noncomputable def div_term (F j : ℕ) : ℝ :=
  (10000 : ℝ) ^ (((2 * (j / 2) : ℕ) : ℝ) / (F : ℝ))

/-- Value of `pos_x` before `sin` (line 288): `x_embed[:, :, None] / div_term`. -/
noncomputable def pos_x_val (F h w j : ℕ) : ℝ := (x_embed h w : ℝ) / div_term F j

/-- Value of `pos_y` before `sin` (line 289): `y_embed[:, :, None] / div_term`. -/
noncomputable def pos_y_val (F h w j : ℕ) : ℝ := (y_embed h w : ℝ) / div_term F j

/-- Length of the even-strided slice `a[0::2]` of an axis of length `F`. -/
def numEven (F : ℕ) : ℕ := (F + 1) / 2

/-- Source channel feeding output channel `j` after the slice-and-concatenate
of lines 291-298: `np.concatenate([a[0::2], a[1::2]])` places the even source
channels first, then the odd ones. -/
def sliceIdx (F j : ℕ) : ℕ :=
  if j < numEven F then 2 * j else 2 * (j - numEven F) + 1

/-- Channel `j` of the recombined `pos_x` block (lines 291-297): `sin` applied
to every sliced channel. -/
noncomputable def pos_x_c (F h w j : ℕ) : ℝ := Real.sin (pos_x_val F h w (sliceIdx F j))

/-- Channel `j` of the recombined `pos_y` block (lines 294-298). -/
noncomputable def pos_y_c (F h w j : ℕ) : ℝ := Real.sin (pos_y_val F h w (sliceIdx F j))

/-- Channel `ch` of grid cell `(h, w)` after the final concatenation
`[pos_y, pos_x]` on the channel axis (line 300): the `pos_y` block occupies
channels `0..F-1`, the `pos_x` block channels `F..2F-1`. -/
noncomputable def pe_cell (F h w ch : ℕ) : ℝ :=
  if ch < F then pos_y_c F h w ch else pos_x_c F h w (ch - F)

/-- One batch slice of the positional encodings after the reshape of lines
305-308: the `H × W` grid flattened row-major to `H * W` rows of `2F`
channels, row `r` being grid cell `(r / W, r % W)`. -/
noncomputable def posEncSlice (H W F : ℕ) : List (List ℝ) :=
  (List.range (H * W)).map
    (fun r => (List.range (2 * F)).map (fun ch => pe_cell F (r / W) (r % W) ch))

/-- The full tensor (lines 301-302): `np.expand_dims` followed by `np.repeat`
over the batch axis replicates the single slice `batch_size` times. -/
noncomputable def posEncTensor (H W F B : ℕ) : List (List (List ℝ)) :=
  List.replicate B (posEncSlice H W F)

/-- Embedding of `create_positional_encodings` (lines 260-310): the destructuring
`height, width, c = fm_shape` (line 280) succeeds only for a shape with
exactly three components, and the third component `c` is never used. -/
noncomputable def create_positional_encodings (fm_shape : List ℕ)
    (num_pos_feats batch_size : ℕ) : Option (List (List (List ℝ))) :=
  match fm_shape with
  | [height, width, _c] => some (posEncTensor height width num_pos_feats batch_size)
  | _ => none

/-- What `loadlabel` receives back from `numpy.loadtxt`: a 1-D vector when the
label file holds a single line, a 2-D array otherwise. -/
inductive ParsedLabels where
  | oneD (data : List ℚ)
  | twoD (rows : List (List ℚ))
deriving DecidableEq

/-- Shape normalization of `DataFeeder.loadlabel` (data_feeder.py lines
172-176): a 1-D parse result (`labels.ndim == 1`) is reshaped to `(1, 5)`
(`np.reshape` fails unless the vector has exactly 5 entries), a 2-D result is
returned unchanged. -/
def loadlabel (labels : ParsedLabels) : Option (List (List ℚ)) :=
  match labels with
  | .oneD d => if d.length = 5 then some [d] else none
  | .twoD rows => some rows

example : labels_to_targets [⟨0, 5, 5, 2, 2⟩, ⟨1, 1, 1, 3, 3⟩] 5 2 =
    ([0, 1, 2, 2, 2],
     [(5, 5, 2, 2), (1, 1, 3, 3), (2,2,2,2), (2,2,2,2), (2,2,2,2)]) := by
  decide

example : retrieve_obj_indices [[0, 4, 4], [1, 2, 3], [0, 4, 4]] = [[0], [1, 2, 3], [4]] := by
  decide

example : retrieve_obj_indices [[(3 : ℚ)]] = [[0]] := by decide

example : rangesFrom 0 [1, 3, 1] = [[0], [1, 2, 3], [4]] := by decide

lemma foldl_writeStep_pair :
    ∀ (l : List (ℕ × Label)) (c : List ℚ) (b : List (ℚ × ℚ × ℚ × ℚ)),
      l.foldl writeStep (c, b) =
        (l.foldl (setStep Label.cls) c, l.foldl (setStep bboxOf) b) := by
  intro l
  induction l with
  | nil => intro c b; rfl
  | cons hd tl ih =>
    intro c b
    rw [List.foldl_cons,
      show writeStep (c, b) hd = (setStep Label.cls c hd, setStep bboxOf b hd) from rfl,
      ih, List.foldl_cons, List.foldl_cons]

lemma foldl_setStep_length {α : Type} (g : Label → α) :
    ∀ (l : List (ℕ × Label)) (c : List α), (l.foldl (setStep g) c).length = c.length := by
  intro l
  induction l with
  | nil => intro c; rfl
  | cons hd tl ih => intro c; rw [List.foldl_cons, ih]; simp [setStep]

lemma foldl_setStep_getElem? {α : Type} (g : Label → α) (ls : List Label) :
    ∀ (n : ℕ) (cs : List α) (j : ℕ), j < cs.length →
      ((ls.enumFrom n).foldl (setStep g) cs)[j]? =
        if n ≤ j ∧ j < n + ls.length then (ls[j - n]?).map g else cs[j]? := by
  induction ls with
  | nil =>
    intro n cs j hj
    rw [List.enumFrom_nil, List.foldl_nil, List.length_nil, if_neg (by omega)]
  | cons hd tl ih =>
    intro n cs j hj
    rw [List.enumFrom_cons, List.foldl_cons, List.length_cons,
      ih (n + 1) (setStep g cs (n, hd)) j (by simpa [setStep] using hj)]
    by_cases h1 : n + 1 ≤ j ∧ j < n + 1 + tl.length
    · rw [if_pos h1, if_pos (by omega)]
      have hjn : j - n = j - (n + 1) + 1 := by omega
      rw [hjn, List.getElem?_cons_succ]
    · by_cases h2 : j = n
      · subst h2
        rw [if_neg h1, if_pos (by omega), Nat.sub_self]
        simp [setStep, List.getElem?_set_self hj]
      · rw [if_neg h1, if_neg (by omega)]
        simp [setStep, List.getElem?_set_ne (by omega : n ≠ j)]

/-- C2: for a label array with `k ≤ Q` rows, `labels_to_targets` returns a
class target of length `Q` and a bbox target of length `Q`; slot `idx < k`
holds the `idx`-th label's class and `(x,y,w,h)` in original order, and every
slot `idx ≥ k` holds the sentinel `C` (resp. `(C,C,C,C)`). -/
theorem labels_to_targets_spec (ls : List Label) (Q : ℕ) (C : ℚ)
    (hk : ls.length ≤ Q) :
    (labels_to_targets ls Q C).1.length = Q ∧
    (labels_to_targets ls Q C).2.length = Q ∧
    (∀ i, i < ls.length →
      (labels_to_targets ls Q C).1[i]? = (ls[i]?).map Label.cls ∧
      (labels_to_targets ls Q C).2[i]? = (ls[i]?).map bboxOf) ∧
    (∀ i, ls.length ≤ i → i < Q →
      (labels_to_targets ls Q C).1[i]? = some C ∧
      (labels_to_targets ls Q C).2[i]? = some (C, C, C, C)) := by
  have henum : ls.enum = ls.enumFrom 0 := rfl
  have h1 : (labels_to_targets ls Q C).1 =
      (ls.enumFrom 0).foldl (setStep Label.cls) (List.replicate Q C) := by
    simp only [labels_to_targets, foldl_writeStep_pair, henum]
  have h2 : (labels_to_targets ls Q C).2 =
      (ls.enumFrom 0).foldl (setStep bboxOf) (List.replicate Q (C, C, C, C)) := by
    simp only [labels_to_targets, foldl_writeStep_pair, henum]
  refine ⟨?_, ?_, ?_, ?_⟩
  · rw [h1, foldl_setStep_length, List.length_replicate]
  · rw [h2, foldl_setStep_length, List.length_replicate]
  · intro i hi
    have hc : i < (List.replicate Q C).length := by
      rw [List.length_replicate]; omega
    have hb : i < (List.replicate Q ((C, C, C, C) : ℚ × ℚ × ℚ × ℚ)).length := by
      rw [List.length_replicate]; omega
    constructor
    · rw [h1, foldl_setStep_getElem? Label.cls ls 0 _ i hc, if_pos (by omega),
        Nat.sub_zero]
    · rw [h2, foldl_setStep_getElem? bboxOf ls 0 _ i hb, if_pos (by omega),
        Nat.sub_zero]
  · intro i hki hiQ
    have hc : i < (List.replicate Q C).length := by
      rw [List.length_replicate]; omega
    have hb : i < (List.replicate Q ((C, C, C, C) : ℚ × ℚ × ℚ × ℚ)).length := by
      rw [List.length_replicate]; omega
    constructor
    · rw [h1, foldl_setStep_getElem? Label.cls ls 0 _ i hc, if_neg (by omega),
        List.getElem?_replicate_of_lt hiQ]
    · rw [h2, foldl_setStep_getElem? bboxOf ls 0 _ i hb, if_neg (by omega),
        List.getElem?_replicate_of_lt hiQ]

/-- Witness for C2 at the two-object input with `Q = 5`, `C = 2`. -/
theorem labels_to_targets_spec_witness :
    ([⟨0, 5, 5, 2, 2⟩, ⟨1, 1, 1, 3, 3⟩] : List Label).length ≤ 5 ∧
    (labels_to_targets [⟨0, 5, 5, 2, 2⟩, ⟨1, 1, 1, 3, 3⟩] 5 2).1.length = 5 :=
  ⟨by decide,
   (labels_to_targets_spec [⟨0, 5, 5, 2, 2⟩, ⟨1, 1, 1, 3, 3⟩] 5 2 (by decide)).1⟩

lemma trackStep_foldl (batch : List (List ℚ)) :
    ∀ (pre : List (List ℕ)) (off : ℕ),
      (batch.foldl trackStep (pre, off)).1 =
        pre ++ rangesFrom off (countsWith 4 batch) := by
  induction batch with
  | nil => intro pre off; simp [countsWith, rangesFrom]
  | cons s rest ih =>
    intro pre off
    rw [List.foldl_cons,
      show trackStep (pre, off) s =
        (pre ++ [List.range' off ((npWhereNe s 4).length)],
         off + (npWhereNe s 4).length) from rfl,
      ih]
    simp [countsWith, rangesFrom]

lemma rangesFrom_flatten : ∀ (ks : List ℕ) (off : ℕ),
    (rangesFrom off ks).flatten = List.range' off ks.sum := by
  intro ks
  induction ks with
  | nil => intro off; simp [rangesFrom]
  | cons k ks ih =>
    intro off
    rw [rangesFrom, List.flatten_cons, ih, List.sum_cons, List.range'_append_1,
      Nat.add_comm]

/-- C1: the object-presence test of `retrieve_obj_indices` compares against the
hardcoded literal `4.0`, not the configured sentinel: with sentinel `C = 5` a
fully padded sample (zero real objects, both slots equal to `5`) is counted as
two objects and assigned indices `[0, 1]`, while the number of slots differing
from the configured sentinel is `0`. -/
theorem retrieve_obj_indices_hardcoded_sentinel :
    retrieve_obj_indices [[(5 : ℚ), 5]] = [[0, 1]] ∧
    countsWith 5 [[(5 : ℚ), 5]] = [0] := by
  decide

/-- C3 counterexample: with configured sentinel `C = 3`, the batch of one fully
padded sample `[[3]]` has object count `k_0 = 0`, so the claimed ranges are
`[[0, 0)] = [[]]`; the code instead emits `[[0]]`. -/
theorem retrieve_obj_indices_partition_cx :
    retrieve_obj_indices [[(3 : ℚ)]] ≠ rangesFrom 0 (countsWith 3 [[(3 : ℚ)]]) := by
  decide

/-- C3 (amended): with each per-sample count `k_i` taken to be the number of
slots whose value differs from the literal `4.0` actually tested by the code
(equivalently, the non-sentinel count whenever the configured sentinel is `4`),
`retrieve_obj_indices` emits in batch order the contiguous ranges
`[0, k_0), [k_0, k_0 + k_1), ...`, whose concatenation is exactly
`0 .. sum(k_i) - 1` with no gaps or overlaps; counts `[1, 3, 1]` yield
`[[0], [1, 2, 3], [4]]`. -/
theorem retrieve_obj_indices_partition :
    (∀ batch_cls : List (List ℚ),
      retrieve_obj_indices batch_cls = rangesFrom 0 (countsWith 4 batch_cls) ∧
      (retrieve_obj_indices batch_cls).flatten =
        List.range ((countsWith 4 batch_cls).sum)) ∧
    retrieve_obj_indices [[0, 4, 4], [1, 2, 3], [0, 4, 4]] = [[0], [1, 2, 3], [4]] := by
  constructor
  · intro batch_cls
    have h : retrieve_obj_indices batch_cls = rangesFrom 0 (countsWith 4 batch_cls) := by
      rw [retrieve_obj_indices, trackStep_foldl batch_cls [] 0, List.nil_append]
    exact ⟨h, by rw [h, rangesFrom_flatten, List.range_eq_range']⟩
  · decide

/-- C6: the positional-encoding tensor has exactly `B` batch slices, each with
exactly `H * W` rows of exactly `2 * F` channels, for all `H`, `W`, `F`
(odd `F` included) and `B`. -/
theorem posEncTensor_shape (H W F B b r : ℕ) (hb : b < B) (hr : r < H * W) :
    (posEncTensor H W F B).length = B ∧
    ∃ sl, (posEncTensor H W F B)[b]? = some sl ∧ sl.length = H * W ∧
      ∃ row, sl[r]? = some row ∧ row.length = 2 * F := by
  refine ⟨by simp [posEncTensor], posEncSlice H W F,
    by simp [posEncTensor, hb], by simp [posEncSlice], ?_⟩
  refine ⟨(List.range (2 * F)).map (fun ch => pe_cell F (r / W) (r % W) ch), ?_, by simp⟩
  simp [posEncSlice, List.getElem?_map, List.getElem?_range hr]

/-- Witness for C6 at `H = 2, W = 2, F = 2, B = 1` (shape `[1, 4, 4]`). -/
theorem posEncTensor_shape_witness :
    (0 < 1 ∧ 3 < 2 * 2) ∧
    ((posEncTensor 2 2 2 1).length = 1 ∧
     ∃ sl, (posEncTensor 2 2 2 1)[0]? = some sl ∧ sl.length = 2 * 2 ∧
       ∃ row, sl[3]? = some row ∧ row.length = 2 * 2) :=
  ⟨⟨by decide, by decide⟩, posEncTensor_shape 2 2 2 1 0 3 (by decide) (by decide)⟩

/-- C5: the positional encodings are a pure function of `(H, W, F)` alone.
Every batch slice, at every batch index and for every batch size, is the same
single tensor `posEncSlice H W F`; the unused third component of `fm_shape` has
no influence either, and no label data enters the computation. -/
theorem posEncTensor_pure (H W F B₁ B₂ b₁ b₂ cc : ℕ)
    (h₁ : b₁ < B₁) (h₂ : b₂ < B₂) :
    (posEncTensor H W F B₁)[b₁]? = some (posEncSlice H W F) ∧
    (posEncTensor H W F B₂)[b₂]? = some (posEncSlice H W F) ∧
    (posEncTensor H W F B₁)[b₁]? = (posEncTensor H W F B₂)[b₂]? ∧
    create_positional_encodings [H, W, cc] F B₁ = some (posEncTensor H W F B₁) := by
  refine ⟨?_, ?_, ?_, rfl⟩ <;>
    simp [posEncTensor, List.getElem?_replicate_of_lt, h₁, h₂]

/-- Witness for C5: batch index 1 of a 2-slice tensor equals batch index 0 of a
1-slice tensor. -/
theorem posEncTensor_pure_witness :
    (1 < 2 ∧ 0 < 1) ∧
    (posEncTensor 3 3 2 2)[1]? = (posEncTensor 3 3 2 1)[0]? :=
  ⟨⟨by decide, by decide⟩,
   (posEncTensor_pure 3 3 2 2 1 1 0 7 (by decide) (by decide)).2.2.1⟩

/-- C8: no configuration validation exists. With `F = 0` (non-positive feature
count) the construction still succeeds and silently returns a degenerate
tensor of `H * W` rows with zero channels, and with `height = 0` it succeeds
and returns a slice with zero rows, instead of rejecting either configuration
before batch processing. -/
theorem cpe_no_config_validation :
    create_positional_encodings [2, 2, 3] 0 1 = some [[[], [], [], []]] ∧
    create_positional_encodings [0, 5, 3] 4 1 = some [[]] := by
  constructor <;> rfl

/-- C10: `create_positional_encodings` succeeds exactly when `fm_shape` has
three components (the documented two-component `[H, W]` shape makes the
destructuring fail), and the third component has no influence on the result. -/
theorem cpe_arity :
    (∀ (l : List ℕ) (F B : ℕ),
      (create_positional_encodings l F B).isSome = true ↔ l.length = 3) ∧
    (∀ (hh ww cc cc' F B : ℕ),
      create_positional_encodings [hh, ww, cc] F B =
        create_positional_encodings [hh, ww, cc'] F B) := by
  constructor
  · intro l F B
    rcases l with _ | ⟨a, _ | ⟨b, _ | ⟨c3, _ | ⟨d, rest⟩⟩⟩⟩
    · simp [show create_positional_encodings [] F B = none from rfl]
    · simp [show create_positional_encodings [a] F B = none from rfl]
    · simp [show create_positional_encodings [a, b] F B = none from rfl]
    · simp [show create_positional_encodings [a, b, c3] F B =
        some (posEncTensor a b F B) from rfl]
    · simp [show create_positional_encodings (a :: b :: c3 :: d :: rest) F B =
        none from rfl]
  · intro hh ww cc cc' F B; rfl

/-- C4 (amended): for `h < H`, `w < W`, `j < F`, the row of the encoding at
flattened index `h * W + w` holds `sin((h+1) / div(sliceIdx F j))` at channel
`j` and `sin((w+1) / div(sliceIdx F j))` at channel `F + j`: the `pos_y` block
occupies the first `F` channels and the `pos_x` block the last `F`, but within
each block the channels are laid out even-source-channels first
(`sliceIdx F j = 2j` for `j < ⌈F/2⌉`, else `2(j - ⌈F/2⌉) + 1`), not in source
channel order `j = 0..F-1`. -/
theorem posEnc_channel_layout (H W F h w j : ℕ)
    (hh : h < H) (hw : w < W) (hj : j < F) :
    ((posEncSlice H W F)[h * W + w]?).bind (fun row => row[j]?) =
      some (Real.sin (((h : ℝ) + 1) / div_term F (sliceIdx F j))) ∧
    ((posEncSlice H W F)[h * W + w]?).bind (fun row => row[F + j]?) =
      some (Real.sin (((w : ℝ) + 1) / div_term F (sliceIdx F j))) := by
  have hW : 0 < W := by omega
  have hr : h * W + w < H * W := by
    have h1 : h * W + w < (h + 1) * W := by
      rw [Nat.succ_mul]; omega
    have h2 : (h + 1) * W ≤ H * W := Nat.mul_le_mul_right W (by omega)
    omega
  have hdiv : (h * W + w) / W = h := by
    rw [Nat.mul_comm, Nat.mul_add_div hW, Nat.div_eq_of_lt hw]
    omega
  have hmod : (h * W + w) % W = w := by
    rw [Nat.mul_comm, Nat.mul_add_mod]
    exact Nat.mod_eq_of_lt hw
  have hrow : (posEncSlice H W F)[h * W + w]? =
      some ((List.range (2 * F)).map (fun ch => pe_cell F h w ch)) := by
    simp [posEncSlice, List.getElem?_map, List.getElem?_range hr, hdiv, hmod]
  rw [hrow]
  constructor
  · have hj2 : j < 2 * F := by omega
    simp only [Option.some_bind, List.getElem?_map, List.getElem?_range hj2,
      Option.map_some']
    rw [show pe_cell F h w j = pos_y_c F h w j from if_pos hj]
    simp [pos_y_c, pos_y_val, y_embed]
  · have hj2 : F + j < 2 * F := by omega
    simp only [Option.some_bind, List.getElem?_map, List.getElem?_range hj2,
      Option.map_some']
    rw [show pe_cell F h w (F + j) = pos_x_c F h w (F + j - F) from
      if_neg (by omega), Nat.add_sub_cancel_left]
    simp [pos_x_c, pos_x_val, x_embed]

/-- Witness for C4 (amended) at `H = W = 1`, `F = 1`, cell `(0,0)`, channel 0. -/
theorem posEnc_channel_layout_witness :
    (0 < 1 ∧ 0 < 1 ∧ 0 < 1) ∧
    ((posEncSlice 1 1 1)[0 * 1 + 0]?).bind (fun row => row[0]?) =
      some (Real.sin ((((0 : ℕ) : ℝ) + 1) / div_term 1 (sliceIdx 1 0))) :=
  ⟨⟨by decide, by decide, by decide⟩,
   (posEnc_channel_layout 1 1 1 0 0 0 (by decide) (by decide) (by decide)).1⟩

/-- C4 counterexample: with `H = W = 1` and `F = 3`, channel 1 of the `pos_y`
block at grid cell `(0, 0)` is `sin(1 / 10000^(2/3))` (source channel 2, the
second even one), not the claimed `sin((0+1) / div(1)) = sin 1`. -/
theorem posEnc_channel_order_cx :
    ((posEncSlice 1 1 3)[0]?).bind (fun row => row[1]?) ≠
      some (Real.sin (((0 : ℝ) + 1) / div_term 3 1)) := by
  have hL : ((posEncSlice 1 1 3)[0]?).bind (fun row => row[1]?) =
      some (Real.sin (((1 : ℕ) : ℝ) / div_term 3 2)) := rfl
  have hd2 : div_term 3 2 = (10000 : ℝ) ^ ((2 : ℝ) / 3) := by
    simp only [div_term]
    norm_num
  have hd1 : div_term 3 1 = 1 := by
    simp only [div_term]
    norm_num
  rw [hL, hd2, hd1]
  have ht1 : (1 : ℝ) < (10000 : ℝ) ^ ((2 : ℝ) / 3) :=
    (Real.one_lt_rpow_iff_of_pos (by norm_num)).mpr
      (Or.inl ⟨by norm_num, by norm_num⟩)
  have ht0 : (0 : ℝ) < (10000 : ℝ) ^ ((2 : ℝ) / 3) := lt_trans one_pos ht1
  have hlt : (1 : ℝ) / (10000 : ℝ) ^ ((2 : ℝ) / 3) < 1 := by
    rw [div_lt_one ht0]; exact ht1
  have h0 : (0 : ℝ) < 1 / (10000 : ℝ) ^ ((2 : ℝ) / 3) := by positivity
  have hpi : (1 : ℝ) ≤ Real.pi / 2 := by
    have := Real.pi_gt_three; linarith
  have hmono : Real.sin (1 / (10000 : ℝ) ^ ((2 : ℝ) / 3)) < Real.sin 1 := by
    have hpos : (0 : ℝ) < Real.pi := Real.pi_pos
    exact Real.strictMonoOn_sin
      ⟨by linarith, by linarith⟩ ⟨by linarith, hpi⟩ hlt
  intro hcontra
  rw [Option.some.injEq] at hcontra
  norm_num at hcontra
  rw [one_div] at hmono
  rw [hcontra] at hmono
  exact lt_irrefl _ hmono

/-- C7: no capacity check exists in `labels_to_targets`. At `Q = 1` with two
labeled objects (`k = 2 > Q`), the function completes normally and returns
ordinary length-`Q` targets — there is no `CapacityError`, rejection, or
warning of any kind.  (In this list model the out-of-bounds write at slot 1 is
dropped; the compiled source performs the write with no bounds check at all,
which in plain `numpy` would raise `IndexError` and under `numba`'s `@jit` is
an unchecked out-of-bounds store.) -/
theorem labels_to_targets_over_capacity :
    labels_to_targets [⟨0, 9, 9, 9, 9⟩, ⟨1, 8, 8, 8, 8⟩] 1 3 =
      ([0], [(9, 9, 9, 9)]) := by
  decide

/-- C9: a sample parsing to a flat 5-element vector is returned as a `[1, 5]`
array (one row of five entries), never as a flat 5-vector; a 2-D parse result
(`[#Objects, 5]`) is returned with its shape unchanged. -/
theorem loadlabel_shape (d : List ℚ) (hd : d.length = 5) :
    loadlabel (.oneD d) = some [d] ∧
    ([d] : List (List ℚ)).length = 1 ∧
    (∀ r, r ∈ ([d] : List (List ℚ)) → r.length = 5) ∧
    (∀ rows : List (List ℚ), loadlabel (.twoD rows) = some rows) := by
  refine ⟨by simp [loadlabel, hd], rfl, ?_, fun rows => rfl⟩
  intro r hr
  rw [List.mem_singleton] at hr
  rw [hr]
  exact hd

/-- Witness for C9 at a concrete single-object label vector. -/
theorem loadlabel_shape_witness :
    ([0, 1, 1, 2, 2] : List ℚ).length = 5 ∧
    loadlabel (.oneD [0, 1, 1, 2, 2]) = some [[0, 1, 1, 2, 2]] :=
  ⟨by decide, (loadlabel_shape [0, 1, 1, 2, 2] (by decide)).1⟩
